import Mathlib

/-!
Verification development for the schema-validation core of
`ballerine-nestjs-typebox`: the validator builder `buildSchemaValidator`
(`src/decorators.ts`) and the error reporter `AjvValidationException`
(`src/exceptions.ts`).

JavaScript runtime values are modelled by the inductive type `Val`
(records carry an insertion-ordered field list, mirroring JS object
property order).  Mutation of the caller's argument by `validate` is made
observable by computing, alongside the returned value, the state the
input value has after the call (`inputAfter`).  The compiled Ajv checker
is an external library component and is treated as an abstract parameter
`check : Val → Option (List ErrorObject)` (`none` = the data conforms,
`some errs` = it fails with raw error list `errs`).

The helper module `util.ts` (`coerceType`, `isObj`) is not among the
provided sources; those two functions are modelled from the
specification, as noted in their doc comments.
-/

/-- A JavaScript runtime value, as far as the validation pipeline
inspects it.  Numbers are modelled as integers (the only numeric values
the claims exercise); `undef` is JS `undefined`. -/
inductive Val where
  | str (s : String)
  | num (n : Int)
  | bool (b : Bool)
  | null
  | undef
  | obj (fields : List (String × Val))
  | arr (elems : List Val)

/-- Test for JS `undefined` (`=== undefined`). -/
def Val.isUndef : Val → Bool
  | .undef => true
  | _ => false

/-- Modelled from the spec: `isObj` lives in the absent `util.ts`; per the
spec a "plain key-value record" — an object that is neither an array nor
a primitive. -/
def isObj : Val → Bool
  | .obj _ => true
  | _ => false

/-- JS `a.includes(b)`: `b` occurs in `a` as a contiguous substring
(the empty string occurs in every string). -/
def strIncludes (a b : String) : Bool :=
  a.toList.tails.any (fun t => b.toList.isPrefixOf t)

/-- One raw Ajv error object (the fields the pipeline reads or reports). -/
structure ErrorObject where
  instancePath : String
  keyword : String
  message : String
  params : String
  deriving DecidableEq

/-- The `type` discriminant of a validator config (`ValidatorType`). -/
inductive ValidatorType where
  | body
  | param
  | query
  | response
  deriving DecidableEq

/-- String interpolation of a `ValidatorType` value. -/
def ValidatorType.str : ValidatorType → String
  | .body => "body"
  | .param => "param"
  | .query => "query"
  | .response => "response"

/-- One step of the dedup loop in the `AjvValidationException` constructor
(`src/exceptions.ts`): state is `(topLevelErrors, unionPaths)`. -/
def dedupStep (st : List ErrorObject × List String) (error : ErrorObject) :
    List ErrorObject × List String :=
  -- don't deeply traverse union errors to reduce error noise
  if st.2.any (fun path => strIncludes error.instancePath path) then st
  else
    let unionPaths :=
      if error.keyword = "oneOf" ∨ error.keyword = "anyOf" then
        st.2 ++ [error.instancePath]
      else st.2
    (st.1 ++ [error], unionPaths)

/-- The deduplicated error list computed by the `AjvValidationException`
constructor from a raw Ajv error list. -/
def topLevelErrors (errors : List ErrorObject) : List ErrorObject :=
  (errors.foldl dedupStep ([], [])).1

/-- The HTTP response body a thrown `AjvValidationException` carries
(the argument of the `super({...})` call). -/
structure ExceptionBody where
  statusCode : Nat
  message : String
  errors : List ErrorObject
  deriving DecidableEq

/-- The `super({...})` payload built by the `AjvValidationException`
constructor (`src/exceptions.ts`): `HttpStatus.BAD_REQUEST = 400`; a JS
falsy `errors` argument (`null`/`undefined`) yields an empty list. -/
def AjvValidationException.body (type : ValidatorType)
    (errors : Option (List ErrorObject)) : ExceptionBody :=
  { statusCode := 400
    message := "Validation failed (" ++ type.str ++ ")"
    errors :=
      match errors with
      | none => []
      | some errs => topLevelErrors errs }

/-- The value found under the `type` key of a schema or property
definition: either a single type name or an array of type names (JSON
Schema allows both).  JS `String(x)` joins an array with commas. -/
inductive TypeVal where
  | str (s : String)
  | list (ss : List String)
  deriving DecidableEq

/-- JS `String(def.type)` for a `type` value. -/
def TypeVal.jsString : TypeVal → String
  | .str s => s
  | .list ss => String.intercalate "," ss

/-- A property definition as inspected by the known-property-type map:
`def && typeof def === 'object' && 'type' in def` distinguishes
non-objects (`nonObj`), objects without a `type` key (`objNoType`) and
objects with one (`objType`). -/
inductive PropDef where
  | nonObj
  | objNoType
  | objType (t : TypeVal)
  deriving DecidableEq

/-- The computed type string for one property definition:
`def && typeof def === 'object' && 'type' in def ? String(def.type) : 'unknown'`. -/
def PropDef.typeString : PropDef → String
  | .nonObj => "unknown"
  | .objNoType => "unknown"
  | .objType t => t.jsString

/-- A (TypeBox-produced) JSON schema document, restricted to the fields
`validate` reads: `type`, `properties` (insertion-ordered), `anyOf`,
`allOf` and `items`.  An absent field is `none`. -/
inductive SchemaDoc where
  | mk : Option TypeVal → Option (List (String × PropDef)) →
      Option (List SchemaDoc) → Option (List SchemaDoc) → Option SchemaDoc → SchemaDoc

/-- The `type` field of a schema document. -/
def SchemaDoc.ty : SchemaDoc → Option TypeVal
  | .mk t _ _ _ _ => t

/-- The `properties` field of a schema document. -/
def SchemaDoc.properties : SchemaDoc → Option (List (String × PropDef))
  | .mk _ p _ _ _ => p

/-- The `anyOf` field of a schema document. -/
def SchemaDoc.anyOf : SchemaDoc → Option (List SchemaDoc)
  | .mk _ _ a _ _ => a

/-- The `allOf` field of a schema document. -/
def SchemaDoc.allOf : SchemaDoc → Option (List SchemaDoc)
  | .mk _ _ _ a _ => a

/-- The `items` field of a schema document. -/
def SchemaDoc.items : SchemaDoc → Option SchemaDoc
  | .mk _ _ _ _ i => i

/-- The empty schema document `{}` (used for `schema.items ?? {}`). -/
def emptySchemaDoc : SchemaDoc := .mk none none none none none

/-- JS property assignment `obj[k] = v` on an insertion-ordered record:
overwrite in place if the key exists, otherwise append at the end. -/
def setKey {α : Type} : List (String × α) → String → α → List (String × α)
  | [], k, v => [(k, v)]
  | p :: rest, k, v => if p.1 = k then (k, v) :: rest else p :: setKey rest k v

/-- The reducer body of the known-property-type map: enter every declared
property of one union branch into the accumulated map with its computed
type string (`Object.entries(schema.properties ?? {})`). -/
def addBranchProps (obj : List (String × String)) (schema : SchemaDoc) :
    List (String × String) :=
  (schema.properties.getD []).foldl
    (fun obj pd => setKey obj pd.1 pd.2.typeString) obj

/-- The known-property type map of `validate` (`src/decorators.ts`): fold
over `jsonSchema.anyOf ?? jsonSchema.allOf ?? [jsonSchema]`, entering
every declared property with its computed type string; a later branch
overwrites an earlier one. -/
def knownPropTypes (jsonSchema : SchemaDoc) : List (String × String) :=
  (jsonSchema.anyOf.getD (jsonSchema.allOf.getD [jsonSchema])).foldl
    addBranchProps []

/-- Parse a non-empty all-digit character list as a natural number. -/
def parseDigits (cs : List Char) : Option Nat :=
  if cs = [] then none
  else if cs.all (fun c => c.isDigit) then
    some (cs.foldl (fun n c => n * 10 + (c.toNat - 48)) 0)
  else none

/-- Modelled from the spec: numeric parsing used by `coerceType`
(`util.ts` is absent from the sources).  A "numeric-looking" string is an
optionally-signed decimal integer literal (numbers are modelled as
integers throughout). -/
def parseNumericString (s : String) : Option Int :=
  match s.toList with
  | '-' :: rest => (parseDigits rest).map (fun n => -(n : Int))
  | cs => (parseDigits cs).map (fun n => (n : Int))

/-- Modelled from the spec: `coerceType` lives in the absent `util.ts`.
Per spec section 4.1, with target `"integer"`/`"number"` a
numeric-looking string is parsed and every other value passes through;
with target `"boolean"` exactly the strings `"true"`/`"false"` map to
booleans; any other target passes the value through.  Coercion is a
total function — it never throws. -/
def coerceType (target : String) (value : Val) : Val :=
  if target = "integer" ∨ target = "number" then
    match value with
    | .str s =>
      match parseNumericString s with
      | some n => .num n
      | none => .str s
    | v => v
  else if target = "boolean" then
    match value with
    | .str "true" => .bool true
    | .str "false" => .bool false
    | v => v
  else value

/-- The body of `validate`'s per-property loop: a property absent from
`knownPropTypes` is skipped (`continue`), a present one is copied into
`processedData` under `stripUnknownProps` and overwritten with its
coerced value under `coerceTypes`. -/
def processProp (coerceTypes stripUnknownProps : Bool)
    (knownPropTypes : List (String × String))
    (processedData : List (String × Val)) (kv : String × Val) :
    List (String × Val) :=
  match knownPropTypes.lookup kv.1 with
  | none => processedData
  | some t =>
    let processedData :=
      if stripUnknownProps then setKey processedData kv.1 kv.2 else processedData
    if coerceTypes then setKey processedData kv.1 (coerceType t kv.2)
    else processedData

/-- The per-record loop of `validate`: starting from `{}` under
`stripUnknownProps` (or from the record itself otherwise, modelling the
alias `processedData = data`), iterate over the record's properties in
order, applying `processProp` to each. -/
def processRecord (coerceTypes stripUnknownProps : Bool)
    (knownPropTypes : List (String × String)) (fields : List (String × Val)) :
    List (String × Val) :=
  fields.foldl (processProp coerceTypes stripUnknownProps knownPropTypes)
    (if stripUnknownProps then [] else fields)

/-- Processing of one batch element inside `validate`'s loop: a plain
record goes through `processRecord`; any other element is coerced as a
whole exactly when `coerceTypes` is set and the governing schema has a
string-valued `type`. -/
def processElement (coerceTypes stripUnknownProps : Bool)
    (knownPropTypes : List (String × String)) (jsonSchema : SchemaDoc)
    (data : Val) : Val :=
  match data with
  | .obj fields => .obj (processRecord coerceTypes stripUnknownProps knownPropTypes fields)
  | data =>
    if coerceTypes then
      match jsonSchema.ty with
      | some (.str t) => coerceType t data
      | _ => data
    else data

/-- The state of one original batch element after `validate`'s loop ran
over it: under `stripUnknownProps` the fresh output record leaves the
original untouched, whereas without it (`processedData = data` aliasing)
the coerced properties are written into the element itself; non-record
elements are never written to. -/
def processElementAfter (coerceTypes stripUnknownProps : Bool)
    (knownPropTypes : List (String × String)) (data : Val) : Val :=
  match data with
  | .obj fields =>
    if stripUnknownProps then .obj fields
    else .obj (processRecord coerceTypes stripUnknownProps knownPropTypes fields)
  | data => data

/-- The value `processedDataOrArray` that `validate` hands to the
compiled checker: when `coerceTypes || stripUnknownProps`, an array is
processed element-wise against `schema.items ?? {}` and any other value
as a singleton batch against `schema` itself; otherwise the input passes
through untouched. -/
def processed (coerceTypes stripUnknownProps : Bool) (schema : SchemaDoc)
    (dataOrArray : Val) : Val :=
  if coerceTypes ∨ stripUnknownProps then
    match dataOrArray with
    | .arr elems =>
      let jsonSchema := schema.items.getD emptySchemaDoc
      let kpt := knownPropTypes jsonSchema
      .arr (elems.map (processElement coerceTypes stripUnknownProps kpt jsonSchema))
    | data => processElement coerceTypes stripUnknownProps (knownPropTypes schema) schema data
  else dataOrArray

/-- The state of the caller's argument after `validate` returns: an input
array has its slots overwritten in place (`dataArray = dataOrArray;
dataArray[i] = processedData`), so it ends up equal to the processed
array; a single record input ends in the state `processElementAfter`
describes; everything else is untouched. -/
def inputAfter (coerceTypes stripUnknownProps : Bool) (schema : SchemaDoc)
    (dataOrArray : Val) : Val :=
  if coerceTypes ∨ stripUnknownProps then
    match dataOrArray with
    | .arr elems => processed coerceTypes stripUnknownProps schema (.arr elems)
    | data => processElementAfter coerceTypes stripUnknownProps (knownPropTypes schema) data
  else dataOrArray

/-- Result of a `validate` call: the returned value, or the thrown
`AjvValidationException`'s response body. -/
inductive ValidateResult where
  | ok (value : Val)
  | failure (body : ExceptionBody)

/-- The `validate` closure returned by `buildSchemaValidator`
(`src/decorators.ts`), with the compiled Ajv checker abstracted as
`check` (`none` = data conforms, `some errs` = raw error list `errs`).
After coercion/stripping, an `undefined` result with `required` unset
returns `undefined`; otherwise the checker decides between returning the
processed data and throwing an `AjvValidationException`. -/
def validate (type : ValidatorType) (schema : SchemaDoc)
    (coerceTypes stripUnknownProps required : Bool)
    (check : Val → Option (List ErrorObject)) (dataOrArray : Val) :
    ValidateResult :=
  let processedDataOrArray := processed coerceTypes stripUnknownProps schema dataOrArray
  if processedDataOrArray.isUndef ∧ ¬required then .ok .undef
  else
    match check processedDataOrArray with
    | none => .ok processedDataOrArray
    | some errs => .failure (AjvValidationException.body type (some errs))

/-- The `schema` slot of a validator config, together with the verdict of
the external `TypeGuard.IsSchema` guard on it: the slot is absent, or
present but rejected by the guard, or present and accepted (in which
case its document is carried). -/
inductive ConfigSchema where
  | absent
  | notSchema
  | schema (s : SchemaDoc)

/-- Whether `TypeGuard.IsSchema` accepts the config's `schema` slot
(`IsSchema(undefined)` is false). -/
def ConfigSchema.isSchemaOk : ConfigSchema → Bool
  | .schema _ => true
  | _ => false

/-- Whether the `schema` slot is present but rejected by the guard. -/
def ConfigSchema.isPresentInvalid : ConfigSchema → Bool
  | .notSchema => true
  | _ => false

/-- The fields of `SchemaValidatorConfig` that `buildSchemaValidator`
destructures. -/
structure SchemaValidatorConfig where
  type : Option ValidatorType
  schema : ConfigSchema
  coerceTypes : Bool
  stripUnknownProps : Bool
  name : Option String
  required : Bool

/-- The (data) fields of the `SchemaValidator` object returned by
`buildSchemaValidator`; its `check`/`validate` closures are modelled by
the standalone `validate` function above. -/
structure SchemaValidator where
  schema : SchemaDoc
  name : String

/-- `buildSchemaValidator` (`src/decorators.ts`): throws on a missing
`type`, a falsy (missing or empty) `name`, or a `schema` slot that
`TypeGuard.IsSchema` rejects; otherwise returns the validator object
carrying the config's schema and name. -/
def buildSchemaValidator (cfg : SchemaValidatorConfig) :
    Except String SchemaValidator :=
  match cfg.type with
  | none => .error "Validator missing \"type\"."
  | some t =>
    match cfg.name with
    | none => .error ("Validator of type \"" ++ t.str ++ "\" missing name.")
    | some name =>
      if name = "" then .error ("Validator of type \"" ++ t.str ++ "\" missing name.")
      else
        match cfg.schema with
        | .schema s => .ok { schema := s, name := name }
        | _ => .error ("Validator \"" ++ name ++ "\" expects a TypeBox schema.")

/-! Claim-side definitions: formulations that follow the wording of the
specification or of the claims, to be compared with the definitions
above that were translated from the source. -/

/-- The dedup process as the spec describes it, with the amended
predicate: process errors in order, discarding an error whose instance
path contains (as a substring) a recorded union path, keeping it
otherwise and recording its path when its keyword is `oneOf`/`anyOf`. -/
def keptErrors (unionPaths : List String) : List ErrorObject → List ErrorObject
  | [] => []
  | error :: rest =>
    if unionPaths.any (fun path => strIncludes error.instancePath path) then
      keptErrors unionPaths rest
    else
      error ::
        keptErrors
          (if error.keyword = "oneOf" ∨ error.keyword = "anyOf" then
            unionPaths ++ [error.instancePath]
          else unionPaths)
          rest

/-- The dedup process exactly as the claim words it: an error is
discarded when its instance path starts with (or equals) a recorded
union path. -/
def keptErrorsStartsWith (unionPaths : List String) :
    List ErrorObject → List ErrorObject
  | [] => []
  | error :: rest =>
    if unionPaths.any (fun path => path.toList.isPrefixOf error.instancePath.toList) then
      keptErrorsStartsWith unionPaths rest
    else
      error ::
        keptErrorsStartsWith
          (if error.keyword = "oneOf" ∨ error.keyword = "anyOf" then
            unionPaths ++ [error.instancePath]
          else unionPaths)
          rest

/-- A checker that accepts every value (abstracting a compiled Ajv
checker on data that conforms). -/
def passCheck : Val → Option (List ErrorObject) := fun _ => none

/-- A checker that rejects every value with an empty raw error list. -/
def constFailCheck : Val → Option (List ErrorObject) := fun _ => some []

/-- The schema `{properties: {age: {type: "integer"}}}` used by the
spec's coercion and stripping examples. -/
def ageSchema : SchemaDoc :=
  .mk none (some [("age", .objType (.str "integer"))]) none none none

/-! Helper lemmas. -/

theorem foldl_dedupStep (errs : List ErrorObject) :
    ∀ (kept : List ErrorObject) (paths : List String),
      (errs.foldl dedupStep (kept, paths)).1 = kept ++ keptErrors paths errs := by
  induction errs with
  | nil => intro kept paths; simp [keptErrors]
  | cons error rest ih =>
    intro kept paths
    rw [List.foldl_cons, keptErrors]
    by_cases h : paths.any (fun path => strIncludes error.instancePath path) = true
    · rw [if_pos h]
      have hstep : dedupStep (kept, paths) error = (kept, paths) := by
        simp [dedupStep, h]
      rw [hstep, ih]
    · rw [if_neg h]
      have hstep : dedupStep (kept, paths) error =
          (kept ++ [error],
            if error.keyword = "oneOf" ∨ error.keyword = "anyOf" then
              paths ++ [error.instancePath]
            else paths) := by
        simp [dedupStep, h]
      rw [hstep, ih]
      simp

theorem keptErrors_sublist :
    ∀ (errs : List ErrorObject) (paths : List String),
      (keptErrors paths errs).Sublist errs := by
  intro errs
  induction errs with
  | nil => intro paths; simp [keptErrors]
  | cons error rest ih =>
    intro paths
    rw [keptErrors]
    by_cases h : paths.any (fun path => strIncludes error.instancePath path) = true
    · exact (if_pos h ▸ (ih paths).cons error)
    · rw [if_neg h]
      exact (ih _).cons₂ error

/-! Claim theorems. -/

/-- C1, counterexample.  The claim says a raw error is discarded iff its
instance path starts with (or equals) a recorded union path, but the
code discards on substring containment (`instancePath.includes(path)`):
on `[{instancePath:"/a", keyword:"oneOf"}, {instancePath:"/b/a",
keyword:"type"}]` the code drops the `/b/a` error (its path contains
`"/a"` as a substring) while the claimed rule keeps it (its path does
not start with `"/a"`). -/
theorem c1_counterexample :
    topLevelErrors
        [⟨"/a", "oneOf", "", ""⟩, ⟨"/b/a", "type", "", ""⟩] ≠
      keptErrorsStartsWith []
        [⟨"/a", "oneOf", "", ""⟩, ⟨"/b/a", "type", "", ""⟩] := by
  decide

/-- C1 (amended): the Error Reporter processes raw errors in order and
discards an error exactly when its instance path contains (as a
substring — not merely as a prefix) a union path recorded from an
earlier kept `oneOf`/`anyOf` error; every kept `oneOf`/`anyOf` error
records its path, kept errors appear in original order, and on the raw
errors `[{"/a", oneOf}, {"/a/b", type}, {"/c", type}]` the report is
exactly the `/a` entry followed by the `/c` entry. -/
theorem c1_dedup_characterization :
    (∀ errs : List ErrorObject, topLevelErrors errs = keptErrors [] errs) ∧
    (∀ errs : List ErrorObject, (topLevelErrors errs).Sublist errs) ∧
    topLevelErrors
        [⟨"/a", "oneOf", "", ""⟩, ⟨"/a/b", "type", "", ""⟩, ⟨"/c", "type", "", ""⟩] =
      [⟨"/a", "oneOf", "", ""⟩, ⟨"/c", "type", "", ""⟩] := by
  have hchar : ∀ errs : List ErrorObject, topLevelErrors errs = keptErrors [] errs := by
    intro errs
    simpa using foldl_dedupStep errs [] []
  refine ⟨hchar, fun errs => ?_, by decide⟩
  rw [hchar]
  exact keptErrors_sublist errs []

/-- C2, counterexample.  A failing `validate` call of kind `body` throws
an exception whose body message is `"Validation failed (body)"`, not the
claimed `"Validation error (body)"`. -/
theorem c2_counterexample :
    validate .body emptySchemaDoc false false true constFailCheck .null =
      .failure { statusCode := 400, message := "Validation failed (body)", errors := [] } ∧
    "Validation failed (body)" ≠ "Validation error (body)" := by
  exact ⟨rfl, by decide⟩

/-- C2 (amended): every `ValidationFailure` raised by `validate` carries
a body whose `statusCode` is 400, whose `message` is exactly
`"Validation failed (<kind>)"` (with `<kind>` the validator's kind), and
whose `errors` field is the deduplicated raw error list reported by the
compiled checker on the processed data. -/
theorem c2_failure_body (type : ValidatorType) (schema : SchemaDoc)
    (coerceTypes stripUnknownProps required : Bool)
    (check : Val → Option (List ErrorObject)) (v : Val) (b : ExceptionBody)
    (h : validate type schema coerceTypes stripUnknownProps required check v = .failure b) :
    b.statusCode = 400 ∧
    b.message = "Validation failed (" ++ type.str ++ ")" ∧
    ∃ raw, check (processed coerceTypes stripUnknownProps schema v) = some raw ∧
      b.errors = topLevelErrors raw := by
  simp only [validate] at h
  split at h
  · exact absurd h (by simp)
  · split at h
    · exact absurd h (by simp)
    · rename_i raw hraw
      have hb : AjvValidationException.body type (some raw) = b := by
        injection h
      subst hb
      exact ⟨rfl, rfl, raw, hraw, rfl⟩

/-- C2, witness: the amended theorem applied to a concrete failing call
of kind `body`. -/
theorem c2_witness :
    ({ statusCode := 400, message := "Validation failed (body)", errors := [] } : ExceptionBody).statusCode = 400 ∧
    ({ statusCode := 400, message := "Validation failed (body)", errors := [] } : ExceptionBody).message =
      "Validation failed (" ++ ValidatorType.str .body ++ ")" ∧
    ∃ raw, constFailCheck (processed false false emptySchemaDoc .null) = some raw ∧
      ({ statusCode := 400, message := "Validation failed (body)", errors := [] } : ExceptionBody).errors =
        topLevelErrors raw :=
  c2_failure_body .body emptySchemaDoc false false true constFailCheck .null
    { statusCode := 400, message := "Validation failed (body)", errors := [] } rfl

/-- C3, counterexample.  With `coerceTypes` set and `stripUnknownProps`
unset, `validate`'s loop aliases `processedData = data` and writes the
coerced values into the caller's record: after validating
`{age: "42"}` against the age schema, the input record itself holds
`{age: 42}` — the call is not side-effect-free. -/
theorem c3_counterexample :
    inputAfter true false ageSchema (.obj [("age", .str "42")]) ≠
      .obj [("age", .str "42")] := by
  have h : inputAfter true false ageSchema (.obj [("age", .str "42")]) =
      .obj [("age", .num 42)] := rfl
  rw [h]
  simp

/-- C3 (amended): `validate` mutates its input in place in two cases:
with `coerceTypes` set and `stripUnknownProps` unset, coerced property
values are written into the input record itself (the input ends up equal
to the processed value, which is also what is returned), and an input
array always has its processed elements written back into its slots.
Only a non-array input under `stripUnknownProps`, and any non-record
non-array input, are left unmodified — as the concrete coercion example
shows, the general claim of side-effect-freedom fails. -/
theorem c3_mutation_characterization :
    (∀ (coerceTypes : Bool) (schema : SchemaDoc) (fields : List (String × Val)),
      inputAfter coerceTypes true schema (.obj fields) = .obj fields) ∧
    (∀ (schema : SchemaDoc) (fields : List (String × Val)),
      inputAfter true false schema (.obj fields) =
        processed true false schema (.obj fields)) ∧
    (∀ (coerceTypes stripUnknownProps : Bool) (schema : SchemaDoc) (elems : List Val),
      inputAfter coerceTypes stripUnknownProps schema (.arr elems) =
        processed coerceTypes stripUnknownProps schema (.arr elems)) ∧
    inputAfter true false ageSchema (.obj [("age", .str "42")]) =
      .obj [("age", .num 42)] := by
  refine ⟨?_, ?_, ?_, rfl⟩
  · intro coerceTypes schema fields
    simp [inputAfter, processElementAfter]
  · intro schema fields
    simp [inputAfter, processed, processElementAfter, processElement]
  · intro coerceTypes stripUnknownProps schema elems
    by_cases h : coerceTypes = true ∨ stripUnknownProps = true
    · simp only [inputAfter, if_pos h]
    · simp only [inputAfter, processed, if_neg h]

/-- Whether `buildSchemaValidator` succeeds on a config. -/
def buildOk (cfg : SchemaValidatorConfig) : Bool :=
  match buildSchemaValidator cfg with
  | .ok _ => true
  | .error _ => false

/-- A config with a kind and a non-empty name whose `schema` slot is
absent. -/
def absentSchemaConfig : SchemaValidatorConfig :=
  { type := some .body, schema := .absent, coerceTypes := false,
    stripUnknownProps := false, name := some "x", required := true }

/-- C4, counterexample.  The claim's failure condition covers a `schema`
that is "present but not structurally valid"; but a config with a kind,
a non-empty name and an ABSENT schema also fails (`TypeGuard.IsSchema`
rejects `undefined`), although none of the claimed failure conditions
hold for it. -/
theorem c4_counterexample :
    buildOk absentSchemaConfig = false ∧
    absentSchemaConfig.type ≠ none ∧
    absentSchemaConfig.name ≠ none ∧
    absentSchemaConfig.name ≠ some "" ∧
    absentSchemaConfig.schema.isPresentInvalid = false := by
  refine ⟨rfl, ?_, ?_, ?_, rfl⟩ <;> simp [absentSchemaConfig]

/-- C4 (amended): `build(config)` fails exactly when the config's kind is
absent, its name is absent or empty, or its schema slot is not accepted
by the schema guard — which happens both when the schema is present but
structurally invalid AND when it is absent.  For every config with a
kind, a non-empty name and a well-formed schema, `build` succeeds and
returns a validator whose `name` and `schema` equal the config's. -/
theorem c4_build_characterization (cfg : SchemaValidatorConfig) :
    (buildOk cfg = false ↔
      cfg.type = none ∨ cfg.name = none ∨ cfg.name = some "" ∨
        cfg.schema.isSchemaOk = false) ∧
    (∀ (t : ValidatorType) (n : String) (s : SchemaDoc),
      cfg.type = some t → cfg.name = some n → n ≠ "" → cfg.schema = .schema s →
      buildSchemaValidator cfg = .ok { schema := s, name := n }) := by
  obtain ⟨ty, sch, co, st, nm, rq⟩ := cfg
  constructor
  · cases ty with
    | none => simp [buildOk, buildSchemaValidator]
    | some t =>
      cases nm with
      | none => simp [buildOk, buildSchemaValidator]
      | some n =>
        by_cases hn : n = ""
        · subst hn; simp [buildOk, buildSchemaValidator]
        · cases sch <;> simp [buildOk, buildSchemaValidator, hn, ConfigSchema.isSchemaOk]
  · intro t n s ht hn hne hs
    simp only at ht hn hs
    subst ht; subst hn; subst hs
    simp [buildSchemaValidator, hne]

/-- C4, witness: the amended theorem's success clause applied to a
concrete well-formed config. -/
theorem c4_witness :
    buildSchemaValidator
        { type := some .body, schema := .schema ageSchema, coerceTypes := false,
          stripUnknownProps := false, name := some "AgeBody", required := true } =
      .ok { schema := ageSchema, name := "AgeBody" } :=
  (c4_build_characterization
      { type := some .body, schema := .schema ageSchema, coerceTypes := false,
        stripUnknownProps := false, name := some "AgeBody", required := true }).2
    .body "AgeBody" ageSchema rfl rfl (by decide) rfl

/-- Coercion of JS `undefined` is the identity for every target type. -/
theorem coerceType_undef (target : String) : coerceType target .undef = .undef := by
  unfold coerceType
  split
  · rfl
  · split <;> rfl

/-- Processing leaves `undefined` untouched, whatever the flags and the
schema. -/
theorem processed_undef (coerceTypes stripUnknownProps : Bool) (schema : SchemaDoc) :
    processed coerceTypes stripUnknownProps schema .undef = .undef := by
  unfold processed
  split
  · show processElement coerceTypes stripUnknownProps (knownPropTypes schema) schema .undef = .undef
    unfold processElement
    split
    · rename_i heq; exact absurd heq (by simp)
    · split
      · split
        · exact coerceType_undef _
        · rfl
      · rfl
  · rfl

/-- C5 (confirmed): for every validator built with `required = false`,
`validate(undefined)` returns `undefined` as a success — the result does
not depend on the compiled checker (quantified over every `check`), so
the checker is never consulted, and no `ValidationFailure` is raised. -/
theorem c5_optional_undefined (type : ValidatorType) (schema : SchemaDoc)
    (coerceTypes stripUnknownProps : Bool)
    (check : Val → Option (List ErrorObject)) :
    validate type schema coerceTypes stripUnknownProps false check .undef = .ok .undef := by
  simp [validate, processed_undef, Val.isUndef]

/-- C6 (confirmed): with `coerceTypes = false` and
`stripUnknownProps = false`, `validate` is the identity on conformant
input — whenever the compiled checker accepts the input, the input is
returned unchanged. -/
theorem c6_identity_on_conformant (type : ValidatorType) (schema : SchemaDoc)
    (required : Bool) (check : Val → Option (List ErrorObject)) (v : Val)
    (h : check v = none) :
    validate type schema false false required check v = .ok v := by
  have hp : processed false false schema v = v := by simp [processed]
  cases v <;> by_cases hr : required <;> simp [validate, hp, h, hr, Val.isUndef]

/-- C6, witness: a concrete conformant call returns its input. -/
theorem c6_witness :
    validate .body ageSchema false false true passCheck .null = .ok .null :=
  c6_identity_on_conformant .body ageSchema true passCheck .null rfl

/-- Test for a JS string value. -/
def Val.isStr : Val → Bool
  | .str _ => true
  | _ => false

/-- C7 (confirmed): numeric coercion (target `"integer"` or `"number"`)
parses numeric-looking strings into numbers and passes every other value
— non-numeric strings and non-string values — through unchanged
(`coerceType` is a total function, so it can never throw); in
particular, validating `{age: "42"}` against
`{properties: {age: {type: "integer"}}}` with `coerceTypes = true`
returns `{age: 42}` whenever the checker accepts the coerced record. -/
theorem c7_numeric_coercion :
    (∀ (s : String) (n : Int), parseNumericString s = some n →
      coerceType "integer" (.str s) = .num n ∧
      coerceType "number" (.str s) = .num n) ∧
    (∀ s : String, parseNumericString s = none →
      coerceType "integer" (.str s) = .str s ∧
      coerceType "number" (.str s) = .str s) ∧
    (∀ v : Val, v.isStr = false →
      coerceType "integer" v = v ∧ coerceType "number" v = v) ∧
    (∀ check : Val → Option (List ErrorObject),
      check (.obj [("age", .num 42)]) = none →
      validate .body ageSchema true false true check (.obj [("age", .str "42")]) =
        .ok (.obj [("age", .num 42)])) := by
  refine ⟨?_, ?_, ?_, ?_⟩
  · intro s n h
    constructor <;> simp [coerceType, h]
  · intro s h
    constructor <;> simp [coerceType, h]
  · intro v hv
    cases v <;> simp_all [coerceType, Val.isStr]
  · intro check h
    have hp : processed true false ageSchema (.obj [("age", .str "42")]) =
        .obj [("age", .num 42)] := rfl
    simp [validate, hp, h, Val.isUndef]

/-- C7, witness: the coercion clauses and the concrete validation example
instantiated at `"42"`, `"abc"`, `null` and an all-accepting checker. -/
theorem c7_witness :
    (coerceType "integer" (.str "42") = .num 42 ∧
      coerceType "number" (.str "42") = .num 42) ∧
    (coerceType "integer" (.str "abc") = .str "abc" ∧
      coerceType "number" (.str "abc") = .str "abc") ∧
    (coerceType "integer" .null = .null ∧ coerceType "number" .null = .null) ∧
    validate .body ageSchema true false true passCheck (.obj [("age", .str "42")]) =
      .ok (.obj [("age", .num 42)]) :=
  ⟨c7_numeric_coercion.1 "42" 42 rfl,
   c7_numeric_coercion.2.1 "abc" rfl,
   c7_numeric_coercion.2.2.1 .null rfl,
   c7_numeric_coercion.2.2.2 passCheck rfl⟩

/-- What `validate`'s stripping loop keeps of one input property: the
property survives exactly when its name is in the known-property map,
and its value is coerced when `coerceTypes` is also set. -/
def stripPick (coerceTypes : Bool) (knownPropTypes : List (String × String))
    (kv : String × Val) : Option (String × Val) :=
  match knownPropTypes.lookup kv.1 with
  | none => none
  | some t => some (kv.1, if coerceTypes then coerceType t kv.2 else kv.2)

theorem setKey_absent {α : Type} (l : List (String × α)) (k : String) (v : α)
    (h : ∀ p ∈ l, p.1 ≠ k) : setKey l k v = l ++ [(k, v)] := by
  induction l with
  | nil => rfl
  | cons p rest ih =>
    rw [setKey, if_neg (h p (List.mem_cons_self p rest)), List.cons_append]
    exact congrArg _ (ih fun q hq => h q (List.mem_cons_of_mem p hq))

theorem setKey_last {α : Type} (l : List (String × α)) (k : String) (v w : α)
    (h : ∀ p ∈ l, p.1 ≠ k) : setKey (l ++ [(k, v)]) k w = l ++ [(k, w)] := by
  induction l with
  | nil => simp [setKey]
  | cons p rest ih =>
    rw [List.cons_append, setKey, if_neg (h p (List.mem_cons_self p rest)),
      List.cons_append]
    exact congrArg _ (ih fun q hq => h q (List.mem_cons_of_mem p hq))

theorem foldl_processProp_strip (coerceTypes : Bool) (kpt : List (String × String)) :
    ∀ (fields acc : List (String × Val)),
      (fields.map Prod.fst).Nodup →
      (∀ p ∈ acc, ∀ q ∈ fields, p.1 ≠ q.1) →
      fields.foldl (processProp coerceTypes true kpt) acc =
        acc ++ fields.filterMap (stripPick coerceTypes kpt) := by
  intro fields
  induction fields with
  | nil => intro acc _ _; simp
  | cons kv rest ih =>
    intro acc hnd hdisj
    rw [List.foldl_cons]
    have hacc1 : ∀ p ∈ acc, p.1 ≠ kv.1 :=
      fun p hp => hdisj p hp kv (List.mem_cons_self kv rest)
    have hnd' : (kv.1 :: rest.map Prod.fst).Nodup := by simpa using hnd
    have hnd1 := List.nodup_cons.mp hnd'
    have hndrest : (rest.map Prod.fst).Nodup := hnd1.2
    have hkvrest : ∀ q ∈ rest, kv.1 ≠ q.1 := by
      intro q hq he
      exact hnd1.1 (he ▸ List.mem_map_of_mem Prod.fst hq)
    cases hl : kpt.lookup kv.1 with
    | none =>
      have hstep : processProp coerceTypes true kpt acc kv = acc := by
        simp [processProp, hl]
      have hpick : stripPick coerceTypes kpt kv = none := by
        simp [stripPick, hl]
      rw [hstep, List.filterMap_cons_none hpick]
      exact ih acc hndrest
        fun p hp q hq => hdisj p hp q (List.mem_cons_of_mem kv hq)
    | some t =>
      have hstep : processProp coerceTypes true kpt acc kv =
          acc ++ [(kv.1, if coerceTypes then coerceType t kv.2 else kv.2)] := by
        have habs := setKey_absent acc kv.1 kv.2 hacc1
        have hlast := setKey_last acc kv.1 kv.2 (coerceType t kv.2) hacc1
        cases coerceTypes <;> simp [processProp, hl, habs, hlast]
      have hpick : stripPick coerceTypes kpt kv =
          some (kv.1, if coerceTypes then coerceType t kv.2 else kv.2) := by
        simp [stripPick, hl]
      rw [hstep, List.filterMap_cons_some hpick]
      rw [ih (acc ++ [(kv.1, if coerceTypes then coerceType t kv.2 else kv.2)]) hndrest ?_]
      · simp
      · intro p hp q hq
        rcases List.mem_append.mp hp with h1 | h2
        · exact hdisj p h1 q (List.mem_cons_of_mem kv hq)
        · have : p = (kv.1, if coerceTypes then coerceType t kv.2 else kv.2) := by
            simpa using h2
          rw [this]
          exact hkvrest q hq

/-- Under `stripUnknownProps`, the record loop keeps exactly the
properties of the known-property map, in input order, coercing them when
`coerceTypes` is also set. -/
theorem processRecord_strip (coerceTypes : Bool) (kpt : List (String × String))
    (fields : List (String × Val)) (hnd : (fields.map Prod.fst).Nodup) :
    processRecord coerceTypes true kpt fields =
      fields.filterMap (stripPick coerceTypes kpt) := by
  have := foldl_processProp_strip coerceTypes kpt fields [] hnd (by simp)
  simpa [processRecord] using this

theorem map_fst_filterMap_stripPick (coerceTypes : Bool)
    (kpt : List (String × String)) (fields : List (String × Val)) :
    (fields.filterMap (stripPick coerceTypes kpt)).map Prod.fst =
      (fields.map Prod.fst).filter (fun k => (kpt.lookup k).isSome) := by
  induction fields with
  | nil => rfl
  | cons kv rest ih =>
    cases hl : kpt.lookup kv.1 with
    | none => simp [stripPick, hl, ih, List.filter_cons]
    | some t => simp [stripPick, hl, ih, List.filter_cons]

/-- C8 (confirmed): with `stripUnknownProps = true`, `validate`'s
transformation of a record input keeps exactly the input properties
whose names are in the known-property map (coercing them when
`coerceTypes` is also set) and drops exactly those whose names are
absent from it; in particular, for
`{properties: {age: {type: "integer"}}}` and input
`{age: 42, extra: "x"}` the call returns `{age: 42}` (no `extra`)
whenever the checker accepts the stripped record.  (JS records cannot
carry duplicate property names, hence the `Nodup` hypothesis.) -/
theorem c8_strip_exactly_known :
    (∀ (coerceTypes : Bool) (schema : SchemaDoc) (fields : List (String × Val)),
      (fields.map Prod.fst).Nodup →
      processed coerceTypes true schema (.obj fields) =
        .obj (fields.filterMap (stripPick coerceTypes (knownPropTypes schema)))) ∧
    (∀ (coerceTypes : Bool) (schema : SchemaDoc) (fields : List (String × Val)),
      (fields.map Prod.fst).Nodup →
      (processRecord coerceTypes true (knownPropTypes schema) fields).map Prod.fst =
        (fields.map Prod.fst).filter
          (fun k => ((knownPropTypes schema).lookup k).isSome)) ∧
    (∀ check : Val → Option (List ErrorObject),
      check (.obj [("age", .num 42)]) = none →
      validate .body ageSchema false true true check
          (.obj [("age", .num 42), ("extra", .str "x")]) =
        .ok (.obj [("age", .num 42)])) := by
  refine ⟨?_, ?_, ?_⟩
  · intro coerceTypes schema fields hnd
    simp [processed, processElement, processRecord_strip coerceTypes _ fields hnd]
  · intro coerceTypes schema fields hnd
    rw [processRecord_strip coerceTypes _ fields hnd]
    exact map_fst_filterMap_stripPick coerceTypes _ fields
  · intro check h
    have hp : processed false true ageSchema
        (.obj [("age", .num 42), ("extra", .str "x")]) = .obj [("age", .num 42)] := rfl
    simp [validate, hp, h, Val.isUndef]

/-- C8, witness: the stripping clauses and the validation example
instantiated at the spec's concrete schema and input. -/
theorem c8_witness :
    processed false true ageSchema (.obj [("age", .num 42), ("extra", .str "x")]) =
      .obj ([("age", Val.num 42), ("extra", Val.str "x")].filterMap
        (stripPick false (knownPropTypes ageSchema))) ∧
    (processRecord false true (knownPropTypes ageSchema)
        [("age", Val.num 42), ("extra", Val.str "x")]).map Prod.fst =
      ([("age", Val.num 42), ("extra", Val.str "x")].map Prod.fst).filter
        (fun k => ((knownPropTypes ageSchema).lookup k).isSome) ∧
    validate .body ageSchema false true true passCheck
        (.obj [("age", .num 42), ("extra", .str "x")]) =
      .ok (.obj [("age", .num 42)]) :=
  ⟨c8_strip_exactly_known.1 false ageSchema
      [("age", Val.num 42), ("extra", Val.str "x")] (by decide),
   c8_strip_exactly_known.2.1 false ageSchema
      [("age", Val.num 42), ("extra", Val.str "x")] (by decide),
   c8_strip_exactly_known.2.2 passCheck rfl⟩

theorem lookup_cons_str {α : Type} (a k : String) (b : α) (es : List (String × α)) :
    List.lookup a ((k, b) :: es) = if a = k then some b else List.lookup a es := by
  by_cases h : a = k
  · have hb : (a == k) = true := beq_iff_eq.mpr h
    simp [List.lookup, hb, h]
  · have hb : (a == k) = false := beq_eq_false_iff_ne.mpr h
    simp [List.lookup, hb, h]

theorem lookup_setKey_self {α : Type} (l : List (String × α)) (k : String) (v : α) :
    (setKey l k v).lookup k = some v := by
  induction l with
  | nil => simp [setKey, lookup_cons_str]
  | cons p rest ih =>
    rw [setKey]
    by_cases hp : p.1 = k
    · rw [if_pos hp, lookup_cons_str, if_pos rfl]
    · rw [if_neg hp]
      obtain ⟨pk, pv⟩ := p
      rw [lookup_cons_str, if_neg (fun he => hp (by simpa using he.symm))]
      exact ih

theorem lookup_setKey_ne {α : Type} (l : List (String × α)) (k k' : String) (v : α)
    (h : k' ≠ k) : (setKey l k v).lookup k' = l.lookup k' := by
  induction l with
  | nil =>
    show List.lookup k' [(k, v)] = List.lookup k' []
    rw [lookup_cons_str, if_neg h]
  | cons p rest ih =>
    obtain ⟨pk, pv⟩ := p
    rw [setKey]
    by_cases hp : (pk, pv).1 = k
    · simp only at hp
      subst hp
      rw [if_pos rfl, lookup_cons_str, lookup_cons_str, if_neg h, if_neg h]
    · rw [if_neg hp, lookup_cons_str, lookup_cons_str]
      by_cases hk' : k' = pk
      · rw [if_pos hk', if_pos hk']
      · rw [if_neg hk', if_neg hk']
        exact ih

theorem lookup_eq_none_of_keys {α : Type} (l : List (String × α)) (a : String)
    (h : ∀ q ∈ l, q.1 ≠ a) : l.lookup a = none := by
  induction l with
  | nil => rfl
  | cons p rest ih =>
    obtain ⟨pk, pv⟩ := p
    rw [lookup_cons_str,
      if_neg (fun he => h (pk, pv) (List.mem_cons_self _ rest) (by simpa using he.symm))]
    exact ih fun q hq => h q (List.mem_cons_of_mem _ hq)

/-- The last union branch (in declaration order) that declares property
`p`, read off the branch list from the right — the "later branches
overwrite earlier ones" rule of the known-property-type map. -/
def lastDeclared (branches : List SchemaDoc) (p : String) : Option PropDef :=
  branches.reverse.findSome? (fun b => (b.properties.getD []).lookup p)

theorem findSome?_append_chain {α β : Type} (l1 l2 : List α) (f : α → Option β) :
    (l1 ++ l2).findSome? f =
      match l1.findSome? f with
      | some x => some x
      | none => l2.findSome? f := by
  induction l1 with
  | nil => simp [List.findSome?]
  | cons a rest ih =>
    rw [List.cons_append, List.findSome?_cons, List.findSome?_cons]
    cases f a <;> simp [ih]

theorem lastDeclared_cons (b : SchemaDoc) (rest : List SchemaDoc) (p : String) :
    lastDeclared (b :: rest) p =
      match lastDeclared rest p with
      | some d => some d
      | none => (b.properties.getD []).lookup p := by
  rw [lastDeclared, List.reverse_cons, findSome?_append_chain]
  rw [show List.findSome? (fun b => (b.properties.getD []).lookup p) rest.reverse =
      lastDeclared rest p from rfl]
  cases lastDeclared rest p with
  | some d => rfl
  | none => cases hfb : (b.properties.getD []).lookup p <;> simp [List.findSome?, hfb]

theorem lookup_addBranchProps_aux :
    ∀ (props : List (String × PropDef)) (acc : List (String × String)) (p : String),
      (props.map Prod.fst).Nodup →
      (props.foldl (fun obj pd => setKey obj pd.1 pd.2.typeString) acc).lookup p =
        match props.lookup p with
        | some d => some d.typeString
        | none => acc.lookup p := by
  intro props
  induction props with
  | nil => intro acc p _; simp [List.lookup]
  | cons pd rest ih =>
    intro acc p hnd
    obtain ⟨pk, pdef⟩ := pd
    have hnd' : (pk :: rest.map Prod.fst).Nodup := by simpa using hnd
    have hnd1 := List.nodup_cons.mp hnd'
    rw [List.foldl_cons, ih _ p hnd1.2, lookup_cons_str]
    by_cases hp : p = pk
    · subst hp
      have hrest : rest.lookup p = none := by
        apply lookup_eq_none_of_keys
        intro q hq he
        exact hnd1.1 (he ▸ List.mem_map_of_mem Prod.fst hq)
      rw [hrest, if_pos rfl, lookup_setKey_self]
    · rw [if_neg hp, lookup_setKey_ne _ _ _ _ hp]

theorem lookup_foldl_addBranchProps :
    ∀ (branches : List SchemaDoc) (acc : List (String × String)) (p : String),
      (∀ b ∈ branches, ((b.properties.getD []).map Prod.fst).Nodup) →
      (branches.foldl addBranchProps acc).lookup p =
        match lastDeclared branches p with
        | some d => some d.typeString
        | none => acc.lookup p := by
  intro branches
  induction branches with
  | nil => intro acc p _; simp [lastDeclared, List.findSome?]
  | cons b rest ih =>
    intro acc p hnd
    rw [List.foldl_cons,
      ih (addBranchProps acc b) p (fun b' hb' => hnd b' (List.mem_cons_of_mem b hb')),
      lastDeclared_cons]
    cases lastDeclared rest p with
    | some d => rfl
    | none =>
      show (addBranchProps acc b).lookup p = _
      rw [addBranchProps, lookup_addBranchProps_aux _ acc p (hnd b (List.mem_cons_self b rest))]

theorem findSome?_isSome_eq_any {α β : Type} (l : List α) (f : α → Option β) :
    (l.findSome? f).isSome = l.any (fun x => (f x).isSome) := by
  induction l with
  | nil => rfl
  | cons a rest ih =>
    rw [List.findSome?_cons]
    cases hf : f a <;> simp [hf, ih]

/-- A plain object schema one of whose properties declares a complex
(array-valued) `type`: `{properties: {a: {type: ["integer", "null"]}}}`. -/
def complexTypeSchema : SchemaDoc :=
  .mk none (some [("a", .objType (.list ["integer", "null"]))]) none none none

/-- The property-to-type mapping exactly as the claim words it: the
declared primitive type name, or `"unknown"` when the declared type is
absent or complex. -/
def specDeclaredTypeString : PropDef → String
  | .objType (.str t) => t
  | _ => "unknown"

/-- C9, counterexample.  For a property declared with the complex type
`["integer", "null"]`, the claim maps it to `"unknown"`, but the code
computes `String(def.type)`, which is the comma-joined string
`"integer,null"` — not `"unknown"`. -/
theorem c9_counterexample :
    (knownPropTypes complexTypeSchema).lookup "a" = some "integer,null" ∧
    specDeclaredTypeString (.objType (.list ["integer", "null"])) = "unknown" ∧
    (knownPropTypes complexTypeSchema).lookup "a" ≠
      some (specDeclaredTypeString (.objType (.list ["integer", "null"]))) := by
  refine ⟨rfl, rfl, by decide⟩

/-- C9 (amended): the known-property type map contains the union of the
declared properties across all branches of
`anyOf ?? allOf ?? [the schema itself]`, each mapped to the string form
`String(def.type)` of its declared type — `"unknown"` exactly when the
property definition is not an object or has no `type` key (a complex
array-valued `type` yields its comma-joined string, not `"unknown"`) —
and when several branches declare the same property name the LAST
branch's entry wins.  (The `Nodup` hypothesis reflects that a JS object
literal cannot declare the same property twice within one branch.) -/
theorem c9_known_prop_map (schema : SchemaDoc)
    (hnd : ∀ b ∈ schema.anyOf.getD (schema.allOf.getD [schema]),
      ((b.properties.getD []).map Prod.fst).Nodup) (p : String) :
    (knownPropTypes schema).lookup p =
      (lastDeclared (schema.anyOf.getD (schema.allOf.getD [schema])) p).map
        PropDef.typeString ∧
    ((knownPropTypes schema).lookup p).isSome =
      (schema.anyOf.getD (schema.allOf.getD [schema])).any
        (fun b => ((b.properties.getD []).lookup p).isSome) := by
  have hchar := lookup_foldl_addBranchProps
    (schema.anyOf.getD (schema.allOf.getD [schema])) [] p hnd
  have h1 : (knownPropTypes schema).lookup p =
      (lastDeclared (schema.anyOf.getD (schema.allOf.getD [schema])) p).map
        PropDef.typeString := by
    rw [knownPropTypes, hchar]
    cases lastDeclared (schema.anyOf.getD (schema.allOf.getD [schema])) p <;>
      simp [List.lookup]
  refine ⟨h1, ?_⟩
  rw [h1, Option.isSome_map', lastDeclared, findSome?_isSome_eq_any, List.any_reverse]

/-- A union schema whose branches both declare property `b`:
`{anyOf: [{properties: {a: {type: "string"}, b: {type: "integer"}}},
{properties: {b: {type: "string"}}}]}`. -/
def unionSchema : SchemaDoc :=
  .mk none none
    (some
      [.mk none (some [("a", .objType (.str "string")), ("b", .objType (.str "integer"))])
        none none none,
       .mk none (some [("b", .objType (.str "string"))]) none none none])
    none none

/-- C9, witness: the amended theorem applied to a concrete two-branch
union schema at the overlapping property name `b` (the second branch's
`"string"` wins). -/
theorem c9_witness :
    (knownPropTypes unionSchema).lookup "b" =
      (lastDeclared (unionSchema.anyOf.getD (unionSchema.allOf.getD [unionSchema])) "b").map
        PropDef.typeString ∧
    ((knownPropTypes unionSchema).lookup "b").isSome =
      (unionSchema.anyOf.getD (unionSchema.allOf.getD [unionSchema])).any
        (fun b => ((b.properties.getD []).lookup "b").isSome) :=
  c9_known_prop_map unionSchema (by decide) "b"

/-- The element transformation an empty known-property map induces under
stripping: every record becomes the empty record, everything else is
untouched. -/
def stripAllElem : Val → Val
  | .obj _ => .obj []
  | v => v

/-- With an empty known-property map, the stripping record loop drops
every property. -/
theorem processRecord_empty_kpt (coerceTypes : Bool) (fields : List (String × Val)) :
    processRecord coerceTypes true [] fields = [] := by
  suffices h : ∀ acc : List (String × Val),
      fields.foldl (processProp coerceTypes true []) acc = acc by
    simpa [processRecord] using h []
  induction fields with
  | nil => intro acc; rfl
  | cons kv rest ih =>
    intro acc
    rw [List.foldl_cons]
    exact ih acc

theorem processElement_empty_schema (coerceTypes : Bool) (e : Val) :
    processElement coerceTypes true [] emptySchemaDoc e = stripAllElem e := by
  cases e <;> cases coerceTypes <;>
    simp [processElement, stripAllElem, processRecord_empty_kpt, emptySchemaDoc,
      SchemaDoc.ty]

/-- C10 (confirmed): with `stripUnknownProps = true`, an array input
whose schema has no `items` sub-schema is processed against the empty
schema `{}`, whose known-property map is empty — so every record element
is replaced by the empty record (all properties dropped) before the
checker runs on the transformed array. -/
theorem c10_array_without_items (coerceTypes : Bool) (schema : SchemaDoc)
    (elems : List Val) (h : schema.items = none) :
    processed coerceTypes true schema (.arr elems) = .arr (elems.map stripAllElem) ∧
    ∀ (type : ValidatorType) (required : Bool)
      (check : Val → Option (List ErrorObject)),
      validate type schema coerceTypes true required check (.arr elems) =
        match check (.arr (elems.map stripAllElem)) with
        | none => .ok (.arr (elems.map stripAllElem))
        | some errs => .failure (AjvValidationException.body type (some errs)) := by
  have hp : processed coerceTypes true schema (.arr elems) =
      .arr (elems.map stripAllElem) := by
    rw [processed, if_pos (Or.inr rfl)]
    show Val.arr (elems.map (processElement coerceTypes true
      (knownPropTypes (schema.items.getD emptySchemaDoc))
      (schema.items.getD emptySchemaDoc))) = _
    rw [h]
    exact congrArg Val.arr
      (List.map_congr_left fun e _ => processElement_empty_schema coerceTypes e)
  refine ⟨hp, fun type required check => ?_⟩
  simp only [validate, hp, Val.isUndef]
  rw [if_neg (by simp)]

/-- C10, witness: a concrete itemless schema, a mixed array, and an
all-accepting checker. -/
theorem c10_witness :
    processed false true ageSchema (.arr [.obj [("x", .num 1)], .num 2]) =
      .arr ([Val.obj [("x", Val.num 1)], Val.num 2].map stripAllElem) ∧
    validate .body ageSchema false true true passCheck
        (.arr [.obj [("x", .num 1)], .num 2]) =
      .ok (.arr [.obj [], .num 2]) := by
  have h := c10_array_without_items false ageSchema
    [Val.obj [("x", Val.num 1)], Val.num 2] rfl
  exact ⟨h.1, h.2 .body true passCheck⟩
